import Mathlib

/-!
# Verification of `foldermon.go`

A shallow embedding of the folder-monitor program: a single event loop that,
on a filesystem creation event, sleeps one second, zips the watched directory
tree into `backup_YYYYMMDD_HHMMSS.zip` inside the backup directory, renames it
to its destination (the same path), and optionally deletes the original files.

Effects (logging, file creation, renames, removals, sleeps, closes) are made
explicit as a trace; fallible operations take their outcome from an
environment record, mirroring the Go error-handling structure statement by
statement.
-/

deriving instance DecidableEq for Except

namespace Foldermon

/-- Observable side effects of the program, in program order.
`effLog` models the `log` package (stdout + log file), `effPrint` models
`fmt.Print*` (stdout only). `effMkdirAll`, `effCloseWriter` and
`effCloseFile` carry the discarded outcome of the corresponding call
(`none` = success, `some e` = error `e`): the program never consults it. -/
inductive Eff where
  | effLog (s : String)
  | effPrint (s : String)
  | effSleep (seconds : Nat)
  | effMkdirAll (path : String) (res : Option String)
  | effCreateFile (path : String)
  | effRename (src dst : String)
  | effRemove (path : String)
  | effCloseWriter (res : Option String)
  | effCloseFile (res : Option String)
deriving DecidableEq, Repr

/-- A wall-clock instant at second resolution, the input of
`time.Now().Format("20060102_150405")`. -/
structure Timestamp where
  year : Nat
  month : Nat
  day : Nat
  hour : Nat
  minute : Nat
  second : Nat
deriving DecidableEq, Repr

/-- Little-endian decimal digits of `n`, zero-padded to width `w`
(the digits Go's zero-padded `fmt`/`time` verbs print, least significant
first). -/
def padDigitsLE : Nat → Nat → List Nat
  | 0, _ => []
  | w + 1, n => n % 10 :: padDigitsLE w (n / 10)

/-- Big-endian decimal digits of `n`, zero-padded to width `w`. -/
def padDigits (w n : Nat) : List Nat := (padDigitsLE w n).reverse

/-- The character printed for one decimal digit. -/
def digitChar : Nat → Char
  | 0 => '0'
  | 1 => '1'
  | 2 => '2'
  | 3 => '3'
  | 4 => '4'
  | 5 => '5'
  | 6 => '6'
  | 7 => '7'
  | 8 => '8'
  | 9 => '9'
  | _ => ' '

/-- The characters of `time.Now().Format("20060102_150405")`:
four year digits, two month digits, two day digits, an underscore,
then two digits each for hour, minute, second. -/
def timestampChars (t : Timestamp) : List Char :=
  (padDigits 4 t.year).map digitChar ++
  (padDigits 2 t.month).map digitChar ++
  (padDigits 2 t.day).map digitChar ++
  ['_'] ++
  (padDigits 2 t.hour).map digitChar ++
  (padDigits 2 t.minute).map digitChar ++
  (padDigits 2 t.second).map digitChar

/-- `fmt.Sprintf("backup_%s.zip", timestamp)`. -/
def zipFileName (t : Timestamp) : String :=
  String.mk ("backup_".data ++ timestampChars t ++ ".zip".data)

/-- `filepath.Join(dir, name)` for clean, nonempty components:
`dir ++ "/" ++ name`. -/
def filepathJoin (dir name : String) : String :=
  String.mk (dir.data ++ '/' :: name.data)

/-- The bundle's path inside the backup directory. -/
def zipFilePath (backupFolder : String) (t : Timestamp) : String :=
  filepathJoin backupFolder (zipFileName t)

/-- One visit delivered by `filepath.Walk` to the zipping walk function,
together with the outcomes of the fallible calls the walk function makes on
it. `errVisit` is a visit whose incoming `err` argument is non-nil;
`dirVisit` is a directory; `fileVisit` is a regular file at the given
path (components relative to the watch root), with the result of
`filepath.Rel`, and the outcomes of `zipWriter.Create`, `os.Open` and
`io.Copy` (`none` = success). -/
inductive WalkEntry where
  | errVisit (path : List String) (e : String)
  | dirVisit (path : List String)
  | fileVisit (path : List String) (rel : Except String (List String))
      (entryErr : Option String) (openErr : Option String)
      (content : List Nat) (copyErr : Option String)
deriving DecidableEq, Repr

/-- One visit delivered by `filepath.Walk` to the deletion walk function:
an error visit, a directory, or a regular file with the outcome of
`os.Remove`. -/
inductive DelEntry where
  | delError (path : String) (e : String)
  | delDir (path : String)
  | delFile (path : String) (removeErr : Option String)
deriving DecidableEq, Repr

/-- Rendering of a full path under the watch root for log lines. -/
def pathStr (watchFolder : String) (p : List String) : String :=
  String.intercalate "/" (watchFolder :: p)

/-- The walk function passed to `filepath.Walk` in `zipAndMove`
(lines 120–152 of `foldermon.go`): propagate an incoming error, skip
directories, compute the relative path, create the archive entry, open the
file, copy its bytes; each failure is returned and aborts the walk. On
success it appends the entry `(relPath, content)` to the bundle state and
logs `Added to zip`. -/
def zipWalkFn (watchFolder : String) :
    WalkEntry → List (List String × List Nat) →
    Except String (List (List String × List Nat) × List Eff)
  | .errVisit _ e, _ => .error e
  | .dirVisit _, st => .ok (st, [])
  | .fileVisit p rel entryErr openErr content copyErr, st =>
    match rel with
    | .error e => .error e
    | .ok relPath =>
      match entryErr with
      | some e => .error e
      | none =>
        match openErr with
        | some e => .error e
        | none =>
          match copyErr with
          | some e => .error e
          | none =>
            .ok (st ++ [(relPath, content)],
                 [Eff.effLog ("Added to zip: " ++ pathStr watchFolder p)])

/-- The walk function of the retention-deletion walk
(lines 170–183 of `foldermon.go`): propagate an incoming error, skip
directories, `os.Remove` the file — on failure return the error (aborting
the walk), on success record the removal and log `Deleted`. -/
def deleteWalkFn :
    DelEntry → List String → Except String (List String × List Eff)
  | .delError _ e, _ => .error e
  | .delDir _, st => .ok (st, [])
  | .delFile p removeErr, st =>
    match removeErr with
    | some e => .error e
    | none => .ok (st ++ [p], [Eff.effRemove p, Eff.effLog ("Deleted: " ++ p)])

/-- `filepath.Walk` over a list of visits: thread the state through the walk
function, stopping at the first visit on which it returns an error (the
`SkipDir` escape is never used by this program). Returns the final state,
the trace of effects, and the error, if any, that `Walk` returns. -/
def runWalk {α σ : Type} (f : α → σ → Except String (σ × List Eff)) :
    List α → σ → σ × List Eff × Option String
  | [], st => (st, [], none)
  | x :: xs, st =>
    match f x st with
    | .error e => (st, [], some e)
    | .ok (st', tr) =>
      let r := runWalk f xs st'
      (r.1, tr ++ r.2.1, r.2.2)

/-- Outcomes of the fallible calls one `zipAndMove` run makes:
`os.Create` of the bundle, the visits `filepath.Walk` delivers, `os.Rename`,
the visits of the deletion walk, and the two deferred `Close` calls. -/
structure ZipEnv where
  createErr : Option String
  walkEntries : List WalkEntry
  renameErr : Option String
  deleteEntries : List DelEntry
  closeWriterErr : Option String
  closeFileErr : Option String
deriving DecidableEq, Repr

/-- The observable outcome of one `zipAndMove` run: its effect trace, the
entries fully written into the bundle, and its return value. -/
structure ZipRun where
  trace : List Eff
  entries : List (List String × List Nat)
  result : Except String Unit
deriving DecidableEq, Repr

/-- `zipAndMove(watchFolder, backupFolder)` (lines 102–190 of
`foldermon.go`), one run at instant `now` with outcomes drawn from `env`.
Mirrors the source statement by statement: create the bundle file (failure
is logged and returned); print the path; walk the watch folder with
`zipWalkFn` (failure is logged and returned); rename the bundle onto its
destination path, which is the same path (failure is logged and returned);
if `deleteAfterZip`, walk again with `deleteWalkFn` and log — without
returning — any error; return nil. The two `defer`red closes
(`zipWriter.Close` then `zipFile.Close`, in LIFO order) run at every return
after a successful create; their outcomes are discarded. -/
def zipAndMove (watchFolder backupFolder : String) (deleteAfterZip : Bool)
    (now : Timestamp) (env : ZipEnv) : ZipRun :=
  let name := zipFileName now
  let path := filepathJoin backupFolder name
  match env.createErr with
  | some e =>
    { trace := [Eff.effLog ("Failed to create zip: " ++ e)]
      entries := []
      result := .error e }
  | none =>
    let deferEffs := [Eff.effCloseWriter env.closeWriterErr,
                      Eff.effCloseFile env.closeFileErr]
    let head := [Eff.effCreateFile path, Eff.effPrint ("Zip file path: " ++ path)]
    let w := runWalk (zipWalkFn watchFolder) env.walkEntries []
    match w.2.2 with
    | some e =>
      { trace := head ++ w.2.1 ++
          [Eff.effLog ("Error creating zip archive: " ++ e)] ++ deferEffs
        entries := w.1
        result := .error e }
    | none =>
      let destPath := filepathJoin backupFolder name
      match env.renameErr with
      | some e =>
        { trace := head ++ w.2.1 ++
            [Eff.effLog ("Failed to move zip file: " ++ e)] ++ deferEffs
          entries := w.1
          result := .error e }
      | none =>
        let moveTr := [Eff.effRename path destPath,
                       Eff.effLog ("Moved zip to: " ++ destPath)]
        if deleteAfterZip then
          let d := runWalk deleteWalkFn env.deleteEntries []
          let dlog := match d.2.2 with
            | some e => [Eff.effLog ("Error deleting files: " ++ e)]
            | none => []
          { trace := head ++ w.2.1 ++ moveTr ++ d.2.1 ++ dlog ++ deferEffs
            entries := w.1
            result := .ok () }
        else
          { trace := head ++ w.2.1 ++ moveTr ++ deferEffs
            entries := w.1
            result := .ok () }

/-- The compile-time retention flag of the source (`deleteAfterZip = false`). -/
def deleteAfterZip : Bool := false

/-! ## A pure directory tree and the walk it induces -/

mutual
/-- A directory tree: a regular file with byte content, or a directory with a
list of named children (in the lexical order in which `filepath.Walk` reads
them). -/
inductive FsTree where
  | file (content : List Nat)
  | dir (children : FsList)
deriving DecidableEq, Repr
/-- The ordered children of a directory. -/
inductive FsList where
  | nil
  | cons (name : String) (tree : FsTree) (rest : FsList)
deriving DecidableEq, Repr
end

/-- Does the list of children contain an entry with this name? -/
def FsList.hasName : FsList → String → Bool
  | .nil, _ => false
  | .cons n _ rest, m => n == m || rest.hasName m

/-- The child of this name, if any (first match). -/
def FsList.findTree : FsList → String → Option FsTree
  | .nil, _ => none
  | .cons n t rest, m => if n = m then some t else rest.findTree m

mutual
/-- Well-formedness of a tree: in every directory, children names are
distinct (as in a real filesystem). -/
def FsTree.wf : FsTree → Bool
  | .file _ => true
  | .dir cs => cs.wfList
/-- Well-formedness of a children list. -/
def FsList.wfList : FsList → Bool
  | .nil => true
  | .cons n t rest => !rest.hasName n && t.wf && rest.wfList
end

/-- The node reached by following a component path from this node. -/
def FsTree.lookup : FsTree → List String → Option FsTree
  | t, [] => some t
  | .file _, _ :: _ => none
  | .dir cs, n :: ps =>
    match cs.findTree n with
    | some t => t.lookup ps
    | none => none

mutual
/-- The visits `filepath.Walk` delivers on a tree rooted at relative path
`pref`, with no I/O failures: the root first, then each child's visits in
order. Every fallible outcome is a success, and `filepath.Rel` yields the
node's components relative to the watch root. -/
def walkEntriesOf : List String → FsTree → List WalkEntry
  | pref, .file c => [.fileVisit pref (.ok pref) none none c none]
  | pref, .dir cs => .dirVisit pref :: walkEntriesList pref cs
/-- Visits of a children list, in order. -/
def walkEntriesList : List String → FsList → List WalkEntry
  | _, .nil => []
  | pref, .cons n t rest => walkEntriesOf (pref ++ [n]) t ++ walkEntriesList pref rest
end

mutual
/-- The archive entries an error-free walk of the tree produces: one
`(relative path, content)` pair per regular file, in walk order. -/
def pureEntries : List String → FsTree → List (List String × List Nat)
  | pref, .file c => [(pref, c)]
  | pref, .dir cs => pureEntriesList pref cs
/-- Entries contributed by a children list. -/
def pureEntriesList : List String → FsList → List (List String × List Nat)
  | _, .nil => []
  | pref, .cons n t rest => pureEntries (pref ++ [n]) t ++ pureEntriesList pref rest
end

/-- The environment of a run on tree `t` in which no I/O operation fails. -/
def pureEnv (t : FsTree) : ZipEnv :=
  { createErr := none
    walkEntries := walkEntriesOf [] t
    renameErr := none
    deleteEntries := []
    closeWriterErr := none
    closeFileErr := none }

/-! ## Startup and the monitor loop -/

/-- `getFoldersFromArgs` (lines 195–202): `os.Args` must have exactly three
elements (program name, watch folder, backup folder); otherwise a usage
error. No existence or permission check is made on either path. -/
def getFoldersFromArgs (args : List String) : Except String (String × String) :=
  if args.length ≠ 3 then
    .error ("usage: " ++ args.getD 0 "" ++ " <watchFolder> <backupFolder>")
  else
    .ok (args.getD 1 "", args.getD 2 "")

/-- Outcomes of the fallible startup calls of `main`: opening the log file,
the command-line arguments, `os.MkdirAll` of the backup folder (whose result
the source discards), `fsnotify.NewWatcher`, and `watcher.Add`. -/
structure StartEnv where
  logOpenErr : Option String
  argv : List String
  mkdirErr : Option String
  watcherErr : Option String
  addErr : Option String
deriving DecidableEq, Repr

/-- How startup ends: `log.Fatal` (prints the error and exits with code 1),
or reaching the monitor loop with the two resolved folders. -/
inductive StartResult where
  | fatalExit (e : String)
  | monitoring (watchFolder backupFolder : String)
deriving DecidableEq, Repr

/-- The startup sequence of `main` (lines 38–70): open the log file, log the
banner, resolve the folders from the arguments, print them, `os.MkdirAll`
the backup folder discarding its result, create the watcher, add the watch
path; each checked failure is `log.Fatal`. -/
def mainStartup (env : StartEnv) : List Eff × StartResult :=
  match env.logOpenErr with
  | some e => ([], .fatalExit e)
  | none =>
    let l0 := [Eff.effLog "Starting folder monitor..."]
    match getFoldersFromArgs env.argv with
    | .error e => (l0, .fatalExit e)
    | .ok (watchFolder, backupFolder) =>
      let l1 := l0 ++ [Eff.effPrint ("Watching folder: " ++ watchFolder),
                       Eff.effPrint ("Backup folder: " ++ backupFolder),
                       Eff.effMkdirAll backupFolder env.mkdirErr]
      match env.watcherErr with
      | some e => (l1, .fatalExit e)
      | none =>
        match env.addErr with
        | some e => (l1, .fatalExit e)
        | none => (l1, .monitoring watchFolder backupFolder)

/-- The log lines of a trace (what the `log` package wrote). -/
def logLines : List Eff → List String
  | [] => []
  | .effLog s :: es => s :: logLines es
  | _ :: es => logLines es

/-- The `fsnotify.Create` operation bit. -/
def fsnotifyCreate : Nat := 1

/-- One message received by the `select` of the monitor loop: an event from
`watcher.Events` (with the instant and fallible-call outcomes of the run it
may trigger), closure of `watcher.Events`, an error from `watcher.Errors`,
or closure of `watcher.Errors`. -/
inductive ChanMsg where
  | eventMsg (name : String) (op : Nat) (now : Timestamp) (env : ZipEnv)
  | eventsClosed
  | watchErr (e : String)
  | errorsClosed
deriving DecidableEq, Repr

/-- What one loop iteration decides: return from `main`, `os.Exit` with a
code, or continue with the next receive. -/
inductive StepResult where
  | stop
  | exit (code : Nat)
  | next
deriving DecidableEq, Repr

/-- One iteration of the monitor loop (lines 73–97): closed channels return;
a watcher error is logged and the loop continues; an event whose `Op` has
the `Create` bit logs the detection, sleeps one second, runs `zipAndMove`,
and on its failure prints the error and exits with code 1; any other event
is ignored. -/
def monitorStep (watchFolder backupFolder : String) (del : Bool) :
    ChanMsg → List Eff × StepResult
  | .eventsClosed => ([], .stop)
  | .errorsClosed => ([], .stop)
  | .watchErr e => ([Eff.effLog ("Watcher error: " ++ e)], .next)
  | .eventMsg name op now env =>
    if op &&& fsnotifyCreate = fsnotifyCreate then
      let run := zipAndMove watchFolder backupFolder del now env
      match run.result with
      | .error e =>
        (Eff.effLog ("Detected new file: " ++ name) :: Eff.effSleep 1 ::
           (run.trace ++ [Eff.effPrint ("Error during zip and move: " ++ e)]),
         .exit 1)
      | .ok _ =>
        (Eff.effLog ("Detected new file: " ++ name) :: Eff.effSleep 1 :: run.trace,
         .next)
    else ([], .next)

/-- How the monitor loop ends on a finite message sequence: the loop
returned (a channel closed), the process exited with a code, or all supplied
messages were consumed and the loop is blocked waiting for the next one. -/
inductive LoopResult where
  | terminated
  | exited (code : Nat)
  | waiting
deriving DecidableEq, Repr

/-- The monitor loop run over a finite sequence of received messages. -/
def monitorLoop (watchFolder backupFolder : String) (del : Bool) :
    List ChanMsg → List Eff × LoopResult
  | [] => ([], .waiting)
  | m :: ms =>
    let s := monitorStep watchFolder backupFolder del m
    match s.2 with
    | .stop => (s.1, .terminated)
    | .exit c => (s.1, .exited c)
    | .next =>
      let r := monitorLoop watchFolder backupFolder del ms
      (s.1 ++ r.1, r.2)

/-! ## The backup directory across several runs -/

/-- `os.Create` on a path truncates an existing file: in a store mapping
bundle paths to the index of the run that last wrote them, the new run
replaces any previous entry at the same path. -/
def createInDir (store : List (String × Nat)) (p : String) (runIdx : Nat) :
    List (String × Nat) :=
  store.filter (fun q => q.1 != p) ++ [(p, runIdx)]

/-- The bundle files present after runs triggered at the given instants,
numbered from `i`. -/
def bundleStoreAux (backupFolder : String) :
    List Timestamp → Nat → List (String × Nat) → List (String × Nat)
  | [], _, st => st
  | t :: ts, i, st =>
    bundleStoreAux backupFolder ts (i + 1)
      (createInDir st (zipFilePath backupFolder t) i)

/-- The bundle files (with the index of the run that wrote each) after runs
triggered at the given instants, in order. -/
def bundleStore (backupFolder : String) (ts : List Timestamp) :
    List (String × Nat) :=
  bundleStoreAux backupFolder ts 0 []

/-- Fields of a timestamp printable in the format's fixed widths (every
real calendar instant with a four-digit year satisfies this). -/
def Timestamp.valid (t : Timestamp) : Prop :=
  t.year < 10000 ∧ t.month < 100 ∧ t.day < 100 ∧
  t.hour < 100 ∧ t.minute < 100 ∧ t.second < 100

instance (t : Timestamp) : Decidable t.valid := by
  unfold Timestamp.valid
  infer_instance

/-- The printed, fixed-width digits of one field. -/
def padChars (w n : Nat) : List Char := (padDigits w n).map digitChar

/-- The `Added to zip` log lines of a list of entries. -/
def addLogs (watchFolder : String) (es : List (List String × List Nat)) : List Eff :=
  es.map (fun pc => Eff.effLog ("Added to zip: " ++ pathStr watchFolder pc.1))

/-- Does one deletion-walk visit succeed? -/
def delOk : DelEntry → Bool
  | .delError _ _ => false
  | .delDir _ => true
  | .delFile _ r => r.isNone

/-- The tree of the spec's scenario: `a.txt` with content `"hello"` and
`sub/b.txt` with content `"world"`. -/
def exampleTree : FsTree :=
  .dir (.cons "a.txt" (.file [104, 101, 108, 108, 111])
    (.cons "sub" (.dir (.cons "b.txt" (.file [119, 111, 114, 108, 100]) .nil)) .nil))

/-- A concrete instant. -/
def exampleTs : Timestamp := ⟨2025, 10, 11, 12, 34, 56⟩

/-- An environment whose walk fails on opening one file. -/
def envOpenFail : ZipEnv :=
  { createErr := none
    walkEntries := [.dirVisit [],
      .fileVisit ["a.txt"] (.ok ["a.txt"]) none (some "open a.txt: permission denied")
        [104, 105] none]
    renameErr := none
    deleteEntries := []
    closeWriterErr := none
    closeFileErr := none }

/-- A retention-enabled environment in which deleting the first file fails
while deleting the second would succeed. -/
def envDelFail : ZipEnv :=
  { createErr := none
    walkEntries := []
    renameErr := none
    deleteEntries := [.delFile "watch/a.txt" (some "permission denied"),
                      .delFile "watch/b.txt" none]
    closeWriterErr := none
    closeFileErr := none }

/-- An environment in which creating the bundle file fails. -/
def envCreateFail : ZipEnv :=
  { createErr := some "open backup/backup_20251011_123456.zip: no such file or directory"
    walkEntries := []
    renameErr := none
    deleteEntries := []
    closeWriterErr := none
    closeFileErr := none }

/-- A startup environment whose setup calls all succeed. -/
def startEnvOk : StartEnv :=
  { logOpenErr := none
    argv := ["foldermon", "watch", "backup"]
    mkdirErr := none
    watcherErr := none
    addErr := none }

/-! ## Injectivity of the bundle name -/

theorem padDigitsLE_length (w n : Nat) : (padDigitsLE w n).length = w := by
  induction w generalizing n with
  | zero => rfl
  | succ w ih => simp [padDigitsLE, ih]

theorem padDigits_length (w n : Nat) : (padDigits w n).length = w := by
  simp [padDigits, padDigitsLE_length]

theorem padDigitsLE_lt (w n : Nat) : ∀ x ∈ padDigitsLE w n, x < 10 := by
  induction w generalizing n with
  | zero => intro x hx; simp [padDigitsLE] at hx
  | succ w ih =>
    intro x hx
    simp only [padDigitsLE, List.mem_cons] at hx
    rcases hx with h | h
    · omega
    · exact ih _ x h

theorem padDigits_lt (w n : Nat) : ∀ x ∈ padDigits w n, x < 10 := by
  intro x hx
  exact padDigitsLE_lt w n x (List.mem_reverse.mp hx)

theorem padDigitsLE_inj (w m n : Nat) (hm : m < 10 ^ w) (hn : n < 10 ^ w)
    (h : padDigitsLE w m = padDigitsLE w n) : m = n := by
  induction w generalizing m n with
  | zero => simp [Nat.pow_zero] at hm hn; omega
  | succ w ih =>
    simp only [padDigitsLE, List.cons.injEq] at h
    have hm' : m / 10 < 10 ^ w := by
      have : m < 10 * 10 ^ w := by
        simpa [Nat.pow_succ, Nat.mul_comm] using hm
      exact Nat.div_lt_of_lt_mul this
    have hn' : n / 10 < 10 ^ w := by
      have : n < 10 * 10 ^ w := by
        simpa [Nat.pow_succ, Nat.mul_comm] using hn
      exact Nat.div_lt_of_lt_mul this
    have hdiv := ih (m / 10) (n / 10) hm' hn' h.2
    have hmod := h.1
    omega

theorem padDigits_inj (w m n : Nat) (hm : m < 10 ^ w) (hn : n < 10 ^ w)
    (h : padDigits w m = padDigits w n) : m = n := by
  apply padDigitsLE_inj w m n hm hn
  have := congrArg List.reverse h
  simpa [padDigits] using this

theorem digitChar_inj (a b : Nat) (ha : a < 10) (hb : b < 10)
    (h : digitChar a = digitChar b) : a = b := by
  interval_cases a <;> interval_cases b <;> simp_all [digitChar]

theorem map_digitChar_inj (l1 l2 : List Nat)
    (h1 : ∀ x ∈ l1, x < 10) (h2 : ∀ x ∈ l2, x < 10)
    (h : l1.map digitChar = l2.map digitChar) : l1 = l2 := by
  induction l1 generalizing l2 with
  | nil => cases l2 <;> simp_all
  | cons a l ih =>
    cases l2 with
    | nil => simp at h
    | cons b l2' =>
      simp only [List.map_cons, List.cons.injEq] at h
      have ha := h1 a (by simp)
      have hb := h2 b (by simp)
      have := digitChar_inj a b ha hb h.1
      have := ih l2' (fun x hx => h1 x (by simp [hx]))
        (fun x hx => h2 x (by simp [hx])) h.2
      simp_all

theorem padChars_length (w n : Nat) : (padChars w n).length = w := by
  simp [padChars, padDigits_length]

theorem padChars_inj (w m n : Nat) (hm : m < 10 ^ w) (hn : n < 10 ^ w)
    (h : padChars w m = padChars w n) : m = n :=
  padDigits_inj w m n hm hn
    (map_digitChar_inj _ _ (padDigits_lt w m) (padDigits_lt w n) h)

theorem timestampChars_eq_padChars (t : Timestamp) :
    timestampChars t =
      padChars 4 t.year ++ padChars 2 t.month ++ padChars 2 t.day ++
      ['_'] ++ padChars 2 t.hour ++ padChars 2 t.minute ++ padChars 2 t.second := by
  rfl

theorem timestampChars_inj (t1 t2 : Timestamp)
    (h1 : t1.valid) (h2 : t2.valid)
    (h : timestampChars t1 = timestampChars t2) : t1 = t2 := by
  obtain ⟨y1, mo1, d1, hh1, mi1, s1⟩ := t1
  obtain ⟨y2, mo2, d2, hh2, mi2, s2⟩ := t2
  obtain ⟨hy1, hmo1, hd1, hhh1, hmi1, hs1⟩ := h1
  obtain ⟨hy2, hmo2, hd2, hhh2, hmi2, hs2⟩ := h2
  simp only at hy1 hmo1 hd1 hhh1 hmi1 hs1 hy2 hmo2 hd2 hhh2 hmi2 hs2
  rw [timestampChars_eq_padChars, timestampChars_eq_padChars] at h
  simp only [List.append_assoc] at h
  obtain ⟨ey, h⟩ := List.append_inj h (by simp [padChars_length])
  obtain ⟨emo, h⟩ := List.append_inj h (by simp [padChars_length])
  obtain ⟨ed, h⟩ := List.append_inj h (by simp [padChars_length])
  obtain ⟨-, h⟩ := List.append_inj h (by simp)
  obtain ⟨eh, h⟩ := List.append_inj h (by simp [padChars_length])
  obtain ⟨emi, es⟩ := List.append_inj h (by simp [padChars_length])
  simp only [Timestamp.mk.injEq]
  refine ⟨?_, ?_, ?_, ?_, ?_, ?_⟩
  · exact padChars_inj 4 _ _ (by norm_num; omega) (by norm_num; omega) ey
  · exact padChars_inj 2 _ _ (by norm_num; omega) (by norm_num; omega) emo
  · exact padChars_inj 2 _ _ (by norm_num; omega) (by norm_num; omega) ed
  · exact padChars_inj 2 _ _ (by norm_num; omega) (by norm_num; omega) eh
  · exact padChars_inj 2 _ _ (by norm_num; omega) (by norm_num; omega) emi
  · exact padChars_inj 2 _ _ (by norm_num; omega) (by norm_num; omega) es

theorem zipFileName_inj (t1 t2 : Timestamp)
    (h1 : t1.valid) (h2 : t2.valid)
    (h : zipFileName t1 = zipFileName t2) : t1 = t2 := by
  apply timestampChars_inj t1 t2 h1 h2
  have h' : "backup_".data ++ (timestampChars t1 ++ ".zip".data) =
      "backup_".data ++ (timestampChars t2 ++ ".zip".data) := by
    have hd := congrArg String.data h
    simpa [zipFileName, List.append_assoc] using hd
  have h'' := List.append_cancel_left h'
  have hl1 : (timestampChars t1).length = (timestampChars t2).length := by
    simp [timestampChars_eq_padChars, padChars_length]
  exact (List.append_inj h'' hl1).1

theorem zipFilePath_inj (backupFolder : String) (t1 t2 : Timestamp)
    (h1 : t1.valid) (h2 : t2.valid)
    (h : zipFilePath backupFolder t1 = zipFilePath backupFolder t2) : t1 = t2 := by
  apply zipFileName_inj t1 t2 h1 h2
  have h' : backupFolder.data ++ '/' :: (zipFileName t1).data =
      backupFolder.data ++ '/' :: (zipFileName t2).data :=
    congrArg String.data h
  have h'' := List.append_cancel_left h'
  simp only [List.cons.injEq, true_and] at h''
  cases hn1 : zipFileName t1
  cases hn2 : zipFileName t2
  rw [hn1, hn2] at h''
  simp_all

/-! ## The error-free walk of a tree -/

theorem runWalk_append_of_ok {α σ : Type} (f : α → σ → Except String (σ × List Eff))
    (xs ys : List α) (st st1 : σ) (tr1 : List Eff)
    (h : runWalk f xs st = (st1, tr1, none)) :
    runWalk f (xs ++ ys) st =
      ((runWalk f ys st1).1, tr1 ++ (runWalk f ys st1).2.1, (runWalk f ys st1).2.2) := by
  induction xs generalizing st tr1 with
  | nil =>
    simp only [runWalk, Prod.mk.injEq] at h
    obtain ⟨h1, h2, -⟩ := h
    subst h1
    simp [← h2]
  | cons x xs ih =>
    simp only [List.cons_append, runWalk, List.append_eq] at h ⊢
    cases hf : f x st with
    | error e' => simp only [hf] at h; simp at h
    | ok p =>
      simp only [hf] at h ⊢
      simp only [Prod.mk.injEq] at h
      obtain ⟨h1, h2, h3⟩ := h
      have hx : runWalk f xs p.1 = (st1, (runWalk f xs p.1).2.1, none) := by
        rw [← h1, ← h3]
      have hih := ih p.1 (runWalk f xs p.1).2.1 hx
      rw [hih]
      simp only [Prod.mk.injEq, true_and, and_true]
      rw [← List.append_assoc, h2]

theorem runWalk_append_of_err {α σ : Type} (f : α → σ → Except String (σ × List Eff))
    (xs ys : List α) (st st1 : σ) (tr1 : List Eff) (e : String)
    (h : runWalk f xs st = (st1, tr1, some e)) :
    runWalk f (xs ++ ys) st = (st1, tr1, some e) := by
  induction xs generalizing st tr1 with
  | nil => simp [runWalk] at h
  | cons x xs ih =>
    simp only [List.cons_append, runWalk, List.append_eq] at h ⊢
    cases hf : f x st with
    | error e' => simp only [hf] at h ⊢; simpa using h
    | ok p =>
      simp only [hf] at h ⊢
      simp only [Prod.mk.injEq] at h
      obtain ⟨h1, h2, h3⟩ := h
      have hx : runWalk f xs p.1 = (st1, (runWalk f xs p.1).2.1, some e) := by
        rw [← h1, ← h3]
      have hih := ih p.1 (runWalk f xs p.1).2.1 hx
      rw [hih]
      simp [h2]

mutual
theorem runWalk_walkEntriesOf (watchFolder : String) :
    ∀ (t : FsTree) (pref : List String) (st : List (List String × List Nat)),
    runWalk (zipWalkFn watchFolder) (walkEntriesOf pref t) st =
      (st ++ pureEntries pref t, addLogs watchFolder (pureEntries pref t), none)
  | .file c, pref, st => by
    simp [walkEntriesOf, pureEntries, runWalk, zipWalkFn, addLogs]
  | .dir cs, pref, st => by
    simp only [walkEntriesOf, pureEntries, runWalk, zipWalkFn]
    rw [runWalk_walkEntriesList watchFolder cs pref st]
    simp
theorem runWalk_walkEntriesList (watchFolder : String) :
    ∀ (cs : FsList) (pref : List String) (st : List (List String × List Nat)),
    runWalk (zipWalkFn watchFolder) (walkEntriesList pref cs) st =
      (st ++ pureEntriesList pref cs, addLogs watchFolder (pureEntriesList pref cs), none)
  | .nil, pref, st => by
    simp [walkEntriesList, pureEntriesList, runWalk, addLogs]
  | .cons n t rest, pref, st => by
    simp only [walkEntriesList, pureEntriesList]
    rw [runWalk_append_of_ok (zipWalkFn watchFolder) _ _ st
          (st ++ pureEntries (pref ++ [n]) t)
          (addLogs watchFolder (pureEntries (pref ++ [n]) t))
          (runWalk_walkEntriesOf watchFolder t (pref ++ [n]) st)]
    rw [runWalk_walkEntriesList watchFolder rest pref (st ++ pureEntries (pref ++ [n]) t)]
    simp [addLogs, List.append_assoc]
end

theorem findTree_hasName :
    ∀ (cs : FsList) (m : String) (t' : FsTree),
    cs.findTree m = some t' → cs.hasName m = true
  | .nil, m, t', h => by simp [FsList.findTree] at h
  | .cons n t rest, m, t', h => by
    simp only [FsList.findTree] at h
    simp only [FsList.hasName, Bool.or_eq_true, beq_iff_eq]
    by_cases hnm : n = m
    · exact Or.inl hnm
    · rw [if_neg hnm] at h
      exact Or.inr (findTree_hasName rest m t' h)

mutual
theorem pureEntries_shape :
    ∀ (t : FsTree) (pref p : List String) (c : List Nat),
    (p, c) ∈ pureEntries pref t → ∃ q, p = pref ++ q
  | .file c', pref, p, c, h => by
    simp only [pureEntries, List.mem_singleton, Prod.mk.injEq] at h
    exact ⟨[], by simp [h.1]⟩
  | .dir cs, pref, p, c, h => by
    obtain ⟨m, q, hp, -⟩ := pureEntriesList_shape cs pref p c h
    exact ⟨m :: q, hp⟩
theorem pureEntriesList_shape :
    ∀ (cs : FsList) (pref p : List String) (c : List Nat),
    (p, c) ∈ pureEntriesList pref cs →
      ∃ m q, p = pref ++ m :: q ∧ cs.hasName m = true
  | .nil, pref, p, c, h => by simp [pureEntriesList] at h
  | .cons n t rest, pref, p, c, h => by
    simp only [pureEntriesList, List.mem_append] at h
    rcases h with h | h
    · obtain ⟨q, hq⟩ := pureEntries_shape t (pref ++ [n]) p c h
      refine ⟨n, q, by simp [hq], ?_⟩
      simp [FsList.hasName]
    · obtain ⟨m, q, hp, hm⟩ := pureEntriesList_shape rest pref p c h
      refine ⟨m, q, hp, ?_⟩
      simp [FsList.hasName, hm]
end

mutual
theorem mem_pureEntries :
    ∀ (t : FsTree) (pref p : List String) (c : List Nat), t.wf = true →
    ((p, c) ∈ pureEntries pref t ↔
      ∃ q, p = pref ++ q ∧ t.lookup q = some (.file c))
  | .file c', pref, p, c, _ => by
    simp only [pureEntries, List.mem_singleton, Prod.mk.injEq]
    constructor
    · rintro ⟨hp, hc⟩
      exact ⟨[], by simp [hp], by simp [FsTree.lookup, hc]⟩
    · rintro ⟨q, hp, hl⟩
      cases q with
      | nil => simp [FsTree.lookup] at hl; simp [hp, hl]
      | cons x xs => simp [FsTree.lookup] at hl
  | .dir cs, pref, p, c, hwf => by
    have hwf' : cs.wfList = true := by simpa [FsTree.wf] using hwf
    rw [pureEntries, mem_pureEntriesList cs pref p c hwf']
    constructor
    · rintro ⟨m, q, t', hp, hf, hl⟩
      exact ⟨m :: q, hp, by simp [FsTree.lookup, hf, hl]⟩
    · rintro ⟨q, hp, hl⟩
      cases q with
      | nil => simp [FsTree.lookup] at hl
      | cons m ps =>
        simp only [FsTree.lookup] at hl
        cases hf : cs.findTree m with
        | none => rw [hf] at hl; simp at hl
        | some t' =>
          rw [hf] at hl
          exact ⟨m, ps, t', hp, hf, hl⟩
theorem mem_pureEntriesList :
    ∀ (cs : FsList) (pref p : List String) (c : List Nat), cs.wfList = true →
    ((p, c) ∈ pureEntriesList pref cs ↔
      ∃ m q t', p = pref ++ m :: q ∧ cs.findTree m = some t' ∧
        t'.lookup q = some (.file c))
  | .nil, pref, p, c, _ => by
    simp [pureEntriesList, FsList.findTree]
  | .cons n t rest, pref, p, c, hwf => by
    have hn : rest.hasName n = false := by
      simp only [FsList.wfList, Bool.and_eq_true, Bool.not_eq_true'] at hwf
      exact hwf.1.1
    have hwt : t.wf = true := by
      simp only [FsList.wfList, Bool.and_eq_true] at hwf
      exact hwf.1.2
    have hwr : rest.wfList = true := by
      simp only [FsList.wfList, Bool.and_eq_true] at hwf
      exact hwf.2
    simp only [pureEntriesList, List.mem_append]
    rw [mem_pureEntries t (pref ++ [n]) p c hwt,
        mem_pureEntriesList rest pref p c hwr]
    constructor
    · rintro (⟨q, hp, hl⟩ | ⟨m, q, t', hp, hf, hl⟩)
      · exact ⟨n, q, t, by simp [hp], by simp [FsList.findTree], hl⟩
      · have hm : m ≠ n := by
          intro he
          rw [he] at hf
          rw [findTree_hasName rest n t' hf] at hn
          exact Bool.true_eq_false.mp hn
        refine ⟨m, q, t', hp, ?_, hl⟩
        simp only [FsList.findTree, if_neg (Ne.symm hm)]
        exact hf
    · rintro ⟨m, q, t', hp, hf, hl⟩
      simp only [FsList.findTree] at hf
      by_cases hnm : n = m
      · subst hnm
        rw [if_pos rfl] at hf
        injection hf with hf
        subst hf
        exact Or.inl ⟨q, by simp [hp], hl⟩
      · rw [if_neg hnm] at hf
        exact Or.inr ⟨m, q, t', hp, hf, hl⟩
end

mutual
theorem nodup_pureEntries :
    ∀ (t : FsTree) (pref : List String), t.wf = true →
    ((pureEntries pref t).map Prod.fst).Nodup
  | .file c, pref, _ => by simp [pureEntries]
  | .dir cs, pref, hwf => by
    rw [pureEntries]
    exact nodup_pureEntriesList cs pref (by simpa [FsTree.wf] using hwf)
theorem nodup_pureEntriesList :
    ∀ (cs : FsList) (pref : List String), cs.wfList = true →
    ((pureEntriesList pref cs).map Prod.fst).Nodup
  | .nil, pref, _ => by simp [pureEntriesList]
  | .cons n t rest, pref, hwf => by
    have hn : rest.hasName n = false := by
      simp only [FsList.wfList, Bool.and_eq_true, Bool.not_eq_true'] at hwf
      exact hwf.1.1
    have hwt : t.wf = true := by
      simp only [FsList.wfList, Bool.and_eq_true] at hwf
      exact hwf.1.2
    have hwr : rest.wfList = true := by
      simp only [FsList.wfList, Bool.and_eq_true] at hwf
      exact hwf.2
    rw [pureEntriesList, List.map_append]
    apply List.Nodup.append
    · exact nodup_pureEntries t (pref ++ [n]) hwt
    · exact nodup_pureEntriesList rest pref hwr
    · intro a ha hb
      simp only [List.mem_map] at ha hb
      obtain ⟨⟨p1, c1⟩, hm1, he1⟩ := ha
      obtain ⟨⟨p2, c2⟩, hm2, he2⟩ := hb
      obtain ⟨q1, hq1⟩ := pureEntries_shape t (pref ++ [n]) p1 c1 hm1
      obtain ⟨m, q2, hq2, hhas⟩ := pureEntriesList_shape rest pref p2 c2 hm2
      simp only at he1 he2
      have hp12 : p1 = p2 := he1.trans he2.symm
      have hq1' : p1 = pref ++ n :: q1 := by
        simpa [List.append_assoc] using hq1
      have heq : pref ++ n :: q1 = pref ++ m :: q2 := by
        rw [← hq1', hp12, hq2]
      have heq' := List.append_cancel_left heq
      have hnm : n = m := by
        injection heq'
      rw [← hnm] at hhas
      rw [hhas] at hn
      exact Bool.true_eq_false.mp hn
end

/-! ## Shape of the run traces -/

theorem zipWalkFn_ok_trace (watchFolder : String) (v : WalkEntry)
    (st st' : List (List String × List Nat)) (tr : List Eff)
    (h : zipWalkFn watchFolder v st = .ok (st', tr)) :
    ∀ x ∈ tr, ∃ s, x = Eff.effLog s := by
  cases v with
  | errVisit p e => simp [zipWalkFn] at h
  | dirVisit p =>
    simp only [zipWalkFn, Except.ok.injEq, Prod.mk.injEq] at h
    intro x hx
    rw [← h.2] at hx
    simp at hx
  | fileVisit p rel entryErr openErr content copyErr =>
    cases rel with
    | error e => simp [zipWalkFn] at h
    | ok relPath =>
      cases entryErr with
      | some e => simp [zipWalkFn] at h
      | none =>
        cases openErr with
        | some e => simp [zipWalkFn] at h
        | none =>
          cases copyErr with
          | some e => simp [zipWalkFn] at h
          | none =>
            simp only [zipWalkFn, Except.ok.injEq, Prod.mk.injEq] at h
            intro x hx
            rw [← h.2] at hx
            simp only [List.mem_singleton] at hx
            exact ⟨_, hx⟩

theorem zipWalk_trace_logs (watchFolder : String) :
    ∀ (xs : List WalkEntry) (st : List (List String × List Nat)),
    ∀ x ∈ (runWalk (zipWalkFn watchFolder) xs st).2.1, ∃ s, x = Eff.effLog s := by
  intro xs
  induction xs with
  | nil => intro st x hx; simp [runWalk] at hx
  | cons v vs ih =>
    intro st x hx
    simp only [runWalk] at hx
    cases hf : zipWalkFn watchFolder v st with
    | error e => rw [hf] at hx; simp at hx
    | ok p =>
      rw [hf] at hx
      simp only [List.mem_append] at hx
      rcases hx with hx | hx
      · exact zipWalkFn_ok_trace watchFolder v st p.1 p.2 (by rw [hf]) x hx
      · exact ih p.1 x hx

theorem runWalk_delete_ok (pre : List DelEntry) :
    ∀ (st : List String), (∀ d ∈ pre, delOk d = true) →
    (runWalk deleteWalkFn pre st).2.2 = none := by
  induction pre with
  | nil => intro st _; simp [runWalk]
  | cons d ds ih =>
    intro st h
    have hd := h d (by simp)
    simp only [runWalk]
    cases d with
    | delError p e => simp [delOk] at hd
    | delDir p =>
      simp only [deleteWalkFn]
      exact ih st (fun d hm => h d (by simp [hm]))
    | delFile p r =>
      cases r with
      | some e => simp [delOk] at hd
      | none =>
        simp only [deleteWalkFn]
        exact ih (st ++ [p]) (fun d hm => h d (by simp [hm]))

theorem runWalk_delete_fail (pre post : List DelEntry) (p e : String) (st : List String)
    (h : ∀ d ∈ pre, delOk d = true) :
    runWalk deleteWalkFn (pre ++ .delFile p (some e) :: post) st =
      ((runWalk deleteWalkFn pre st).1, (runWalk deleteWalkFn pre st).2.1, some e) := by
  have hok : runWalk deleteWalkFn pre st =
      ((runWalk deleteWalkFn pre st).1, (runWalk deleteWalkFn pre st).2.1, none) := by
    rw [← runWalk_delete_ok pre st h]
  rw [runWalk_append_of_ok deleteWalkFn pre (.delFile p (some e) :: post) st _ _ hok]
  simp [runWalk, deleteWalkFn]

theorem delete_trace_remove :
    ∀ (xs : List DelEntry) (st : List String) (q : String),
    Eff.effRemove q ∈ (runWalk deleteWalkFn xs st).2.1 →
    DelEntry.delFile q none ∈ xs := by
  intro xs
  induction xs with
  | nil => intro st q hq; simp [runWalk] at hq
  | cons d ds ih =>
    intro st q hq
    simp only [runWalk] at hq
    cases d with
    | delError p e => simp [deleteWalkFn] at hq
    | delDir p =>
      simp only [deleteWalkFn] at hq
      simp only [List.nil_append] at hq
      exact List.mem_cons_of_mem _ (ih st q hq)
    | delFile p r =>
      cases r with
      | some e => simp [deleteWalkFn] at hq
      | none =>
        simp only [deleteWalkFn] at hq
        simp only [List.cons_append, List.nil_append, List.mem_cons] at hq
        rcases hq with hq | hq | hq
        · injection hq with hq
          rw [hq]
          simp
        · exact absurd hq (by simp)
        · exact List.mem_cons_of_mem _ (ih (st ++ [p]) q hq)

/-- The result and the bundle content of an error-free run on a tree. -/
theorem zipAndMove_pureEnv (watchFolder backupFolder : String) (del : Bool)
    (now : Timestamp) (t : FsTree) :
    (zipAndMove watchFolder backupFolder del now (pureEnv t)).result = .ok () ∧
    (zipAndMove watchFolder backupFolder del now (pureEnv t)).entries =
      pureEntries [] t := by
  have hw := runWalk_walkEntriesOf watchFolder t [] []
  simp only [zipAndMove, pureEnv, hw]
  cases del <;> simp [runWalk]

/-! ## The claims -/

/-- C1: on any well-formed directory tree, an error-free archiving run
succeeds, and the bundle's entry set is exactly the set of watch-root-relative
paths of the regular files of the tree — each visited exactly once (no
duplicate entry paths), directories contributing no entry — with each entry
carrying the source file's bytes verbatim. -/
theorem claim_C1_archive_roundtrip (watchFolder backupFolder : String)
    (del : Bool) (now : Timestamp) (t : FsTree) (hwf : t.wf = true) :
    (zipAndMove watchFolder backupFolder del now (pureEnv t)).result = .ok () ∧
    (((zipAndMove watchFolder backupFolder del now (pureEnv t)).entries.map
        Prod.fst).Nodup) ∧
    (∀ p c, (p, c) ∈ (zipAndMove watchFolder backupFolder del now (pureEnv t)).entries ↔
      t.lookup p = some (.file c)) := by
  obtain ⟨hres, hent⟩ := zipAndMove_pureEnv watchFolder backupFolder del now t
  refine ⟨hres, ?_, ?_⟩
  · rw [hent]
    exact nodup_pureEntries t [] hwf
  · intro p c
    rw [hent, mem_pureEntries t [] p c hwf]
    constructor
    · rintro ⟨q, hq, hl⟩
      simpa [hq] using hl
    · intro hl
      exact ⟨p, by simp, hl⟩

/-- Witness for C1 at the spec's scenario tree. -/
theorem claim_C1_archive_roundtrip_witness :
    exampleTree.wf = true ∧
    ((zipAndMove "watch" "backup" false exampleTs (pureEnv exampleTree)).result = .ok () ∧
     (((zipAndMove "watch" "backup" false exampleTs (pureEnv exampleTree)).entries.map
         Prod.fst).Nodup) ∧
     (∀ p c, (p, c) ∈ (zipAndMove "watch" "backup" false exampleTs
         (pureEnv exampleTree)).entries ↔
       exampleTree.lookup p = some (.file c))) :=
  ⟨by decide,
   claim_C1_archive_roundtrip "watch" "backup" false exampleTs exampleTree (by decide)⟩

/-- C5: the bundle name is a deterministic second-resolution function of the
trigger time; runs in different seconds write two distinct bundle files,
while two runs within the same second write the same path, the later run
silently overwriting the earlier (a single surviving bundle owned by the
later run). -/
theorem claim_C5_bundle_naming (backupFolder : String) (t1 t2 : Timestamp)
    (h1 : t1.valid) (h2 : t2.valid) :
    (t1 ≠ t2 →
      zipFilePath backupFolder t1 ≠ zipFilePath backupFolder t2 ∧
      bundleStore backupFolder [t1, t2] =
        [(zipFilePath backupFolder t1, 0), (zipFilePath backupFolder t2, 1)]) ∧
    (t1 = t2 →
      bundleStore backupFolder [t1, t2] = [(zipFilePath backupFolder t2, 1)]) := by
  constructor
  · intro hne
    have hp : zipFilePath backupFolder t1 ≠ zipFilePath backupFolder t2 :=
      fun he => hne (zipFilePath_inj backupFolder t1 t2 h1 h2 he)
    refine ⟨hp, ?_⟩
    simp only [bundleStore, bundleStoreAux, createInDir, List.filter_nil,
      List.nil_append, List.filter_cons, List.filter_nil]
    rw [if_pos (by simpa using hp)]
    simp
  · intro he
    subst he
    simp only [bundleStore, bundleStoreAux, createInDir, List.filter_nil,
      List.nil_append, List.filter_cons, List.filter_nil]
    rw [if_neg (by simp)]
    simp

/-- Witness for C5 at two concrete instants one second apart, and at equal
instants. -/
theorem claim_C5_bundle_naming_witness :
    (Timestamp.valid ⟨2025, 10, 11, 12, 34, 56⟩ ∧
     Timestamp.valid ⟨2025, 10, 11, 12, 34, 57⟩) ∧
    zipFilePath "backup" ⟨2025, 10, 11, 12, 34, 56⟩ ≠
      zipFilePath "backup" ⟨2025, 10, 11, 12, 34, 57⟩ :=
  ⟨⟨by decide, by decide⟩,
   ((claim_C5_bundle_naming "backup" ⟨2025, 10, 11, 12, 34, 56⟩
       ⟨2025, 10, 11, 12, 34, 57⟩ (by decide) (by decide)).1 (by decide)).1⟩

/-- C6: a failure anywhere in the archiving walk (traversal error,
relative-path failure, entry creation, open, or copy — all surfacing as an
error of the walk) makes `zipAndMove` return that error to its caller; the
bundle file was created but the run performs no rename (not marked
complete) and removes no file, so the incomplete bundle stays on disk. -/
theorem claim_C6_walk_failure_aborts (watchFolder backupFolder : String)
    (del : Bool) (now : Timestamp) (env : ZipEnv) (e : String)
    (hc : env.createErr = none)
    (hw : (runWalk (zipWalkFn watchFolder) env.walkEntries []).2.2 = some e) :
    (zipAndMove watchFolder backupFolder del now env).result = .error e ∧
    Eff.effCreateFile (zipFilePath backupFolder now) ∈
      (zipAndMove watchFolder backupFolder del now env).trace ∧
    (∀ p, Eff.effRemove p ∉ (zipAndMove watchFolder backupFolder del now env).trace) ∧
    (∀ src dst, Eff.effRename src dst ∉
      (zipAndMove watchFolder backupFolder del now env).trace) := by
  have htr : (zipAndMove watchFolder backupFolder del now env).trace =
      [Eff.effCreateFile (filepathJoin backupFolder (zipFileName now)),
       Eff.effPrint ("Zip file path: " ++ filepathJoin backupFolder (zipFileName now))] ++
      (runWalk (zipWalkFn watchFolder) env.walkEntries []).2.1 ++
      [Eff.effLog ("Error creating zip archive: " ++ e)] ++
      [Eff.effCloseWriter env.closeWriterErr, Eff.effCloseFile env.closeFileErr] := by
    simp [zipAndMove, hc, hw]
  have hres : (zipAndMove watchFolder backupFolder del now env).result = .error e := by
    simp [zipAndMove, hc, hw]
  have hall : ∀ x ∈ (zipAndMove watchFolder backupFolder del now env).trace,
      (∃ s, x = Eff.effLog s) ∨ (∃ s, x = Eff.effPrint s) ∨
      (∃ s, x = Eff.effCreateFile s) ∨
      (∃ o, x = Eff.effCloseWriter o) ∨ (∃ o, x = Eff.effCloseFile o) := by
    intro x hx
    rw [htr] at hx
    simp only [List.mem_append] at hx
    rcases hx with ((hx | hx) | hx) | hx
    · simp only [List.mem_cons, List.not_mem_nil, or_false] at hx
      rcases hx with hx | hx
      · exact Or.inr (Or.inr (Or.inl ⟨_, hx⟩))
      · exact Or.inr (Or.inl ⟨_, hx⟩)
    · obtain ⟨s, hs⟩ := zipWalk_trace_logs watchFolder env.walkEntries [] x hx
      exact Or.inl ⟨_, hs⟩
    · simp only [List.mem_singleton] at hx
      exact Or.inl ⟨_, hx⟩
    · simp only [List.mem_cons, List.not_mem_nil, or_false] at hx
      rcases hx with hx | hx
      · exact Or.inr (Or.inr (Or.inr (Or.inl ⟨_, hx⟩)))
      · exact Or.inr (Or.inr (Or.inr (Or.inr ⟨_, hx⟩)))
  refine ⟨hres, ?_, ?_, ?_⟩
  · rw [htr]
    simp [zipFilePath]
  · intro p hp
    rcases hall _ hp with ⟨s, h⟩ | ⟨s, h⟩ | ⟨s, h⟩ | ⟨o, h⟩ | ⟨o, h⟩ <;>
      exact Eff.noConfusion h
  · intro src dst hp
    rcases hall _ hp with ⟨s, h⟩ | ⟨s, h⟩ | ⟨s, h⟩ | ⟨o, h⟩ | ⟨o, h⟩ <;>
      exact Eff.noConfusion h

/-- Witness for C6 at a concrete run whose walk fails to open a file. -/
theorem claim_C6_walk_failure_aborts_witness :
    envOpenFail.createErr = none ∧
    (runWalk (zipWalkFn "watch") envOpenFail.walkEntries []).2.2 =
      some "open a.txt: permission denied" ∧
    (zipAndMove "watch" "backup" false exampleTs envOpenFail).result =
      .error "open a.txt: permission denied" :=
  ⟨rfl, by decide,
   (claim_C6_walk_failure_aborts "watch" "backup" false exampleTs envOpenFail
      "open a.txt: permission denied" rfl (by decide)).1⟩

/-- C10: on a run whose walk and rename succeed, `zipAndMove` returns
success, and the two deferred closes (the archive writer, then the bundle
file) appear in the trace strictly after the rename step; and for every run
whatsoever, the returned value is independent of the outcomes of the two
closes — a close failure can never be reported to the caller. -/
theorem claim_C10_closes_after_rename (watchFolder backupFolder : String)
    (del : Bool) (now : Timestamp) (env : ZipEnv)
    (hc : env.createErr = none)
    (hw : (runWalk (zipWalkFn watchFolder) env.walkEntries []).2.2 = none)
    (hr : env.renameErr = none) :
    (zipAndMove watchFolder backupFolder del now env).result = .ok () ∧
    (∃ pre mid,
      (zipAndMove watchFolder backupFolder del now env).trace =
        pre ++ Eff.effRename (zipFilePath backupFolder now) (zipFilePath backupFolder now) ::
          (mid ++ [Eff.effCloseWriter env.closeWriterErr,
                   Eff.effCloseFile env.closeFileErr])) ∧
    (∀ (env' : ZipEnv) (x y : Option String),
      (zipAndMove watchFolder backupFolder del now
        { env' with closeWriterErr := x, closeFileErr := y }).result =
      (zipAndMove watchFolder backupFolder del now env').result) := by
  refine ⟨?_, ?_, ?_⟩
  · cases hdel : del <;> simp [zipAndMove, hc, hw, hr]
  · cases hdel : del
    · refine ⟨[Eff.effCreateFile (filepathJoin backupFolder (zipFileName now)),
          Eff.effPrint ("Zip file path: " ++ filepathJoin backupFolder (zipFileName now))] ++
          (runWalk (zipWalkFn watchFolder) env.walkEntries []).2.1,
        [Eff.effLog ("Moved zip to: " ++ filepathJoin backupFolder (zipFileName now))], ?_⟩
      simp [zipAndMove, hc, hw, hr, zipFilePath, List.append_assoc]
    · refine ⟨[Eff.effCreateFile (filepathJoin backupFolder (zipFileName now)),
          Eff.effPrint ("Zip file path: " ++ filepathJoin backupFolder (zipFileName now))] ++
          (runWalk (zipWalkFn watchFolder) env.walkEntries []).2.1,
        Eff.effLog ("Moved zip to: " ++ filepathJoin backupFolder (zipFileName now)) ::
          ((runWalk deleteWalkFn env.deleteEntries []).2.1 ++
            (match (runWalk deleteWalkFn env.deleteEntries []).2.2 with
             | some e => [Eff.effLog ("Error deleting files: " ++ e)]
             | none => [])), ?_⟩
      cases hd : (runWalk deleteWalkFn env.deleteEntries []).2.2 <;>
        simp [zipAndMove, hc, hw, hr, hd, zipFilePath, List.append_assoc]
  · intro env' x y
    cases hce : env'.createErr
    · cases hwe : (runWalk (zipWalkFn watchFolder) env'.walkEntries []).2.2
      · cases hre : env'.renameErr
        · cases del <;> simp [zipAndMove, hce, hwe, hre]
        · simp [zipAndMove, hce, hwe, hre]
      · simp [zipAndMove, hce, hwe]
    · simp [zipAndMove, hce]

/-- Witness for C10 at an error-free concrete run on the example tree. -/
theorem claim_C10_closes_after_rename_witness :
    (pureEnv exampleTree).createErr = none ∧
    (runWalk (zipWalkFn "watch") (pureEnv exampleTree).walkEntries []).2.2 = none ∧
    (pureEnv exampleTree).renameErr = none ∧
    (zipAndMove "watch" "backup" false exampleTs (pureEnv exampleTree)).result = .ok () :=
  ⟨rfl, by decide, rfl,
   (claim_C10_closes_after_rename "watch" "backup" false exampleTs (pureEnv exampleTree)
      rfl (by decide) rfl).1⟩

/-- Counterexample to C2 as stated: with retention enabled, the first
file's deletion failure stops the deletion walk, so the remaining regular
file `watch/b.txt` — whose removal would have succeeded — is never removed
(the run itself still completes successfully and the failure is logged). -/
theorem claim_C2_counterexample :
    (zipAndMove "watch" "backup" true exampleTs envDelFail).result = .ok () ∧
    Eff.effLog "Error deleting files: permission denied" ∈
      (zipAndMove "watch" "backup" true exampleTs envDelFail).trace ∧
    Eff.effRemove "watch/b.txt" ∉
      (zipAndMove "watch" "backup" true exampleTs envDelFail).trace := by
  refine ⟨by decide, by decide, by decide⟩

/-- C2 as amended: when retention is enabled and the archive and rename
succeed, a failure to delete one regular file is logged and not escalated —
`zipAndMove` still returns success, so the run completes and the process
stays alive — but the deletion walk stops at the failing file: the only
files removed are those the walk deleted before the failure, and the
remaining regular files are left in place. -/
theorem claim_C2_amended (watchFolder backupFolder : String) (now : Timestamp)
    (env : ZipEnv) (pre post : List DelEntry) (p e : String)
    (hc : env.createErr = none)
    (hw : (runWalk (zipWalkFn watchFolder) env.walkEntries []).2.2 = none)
    (hr : env.renameErr = none)
    (hd : env.deleteEntries = pre ++ .delFile p (some e) :: post)
    (hpre : ∀ d ∈ pre, delOk d = true) :
    (zipAndMove watchFolder backupFolder true now env).result = .ok () ∧
    Eff.effLog ("Error deleting files: " ++ e) ∈
      (zipAndMove watchFolder backupFolder true now env).trace ∧
    (∀ q, Eff.effRemove q ∈ (zipAndMove watchFolder backupFolder true now env).trace →
      DelEntry.delFile q none ∈ pre) := by
  have hdel := runWalk_delete_fail pre post p e [] hpre
  have htr : (zipAndMove watchFolder backupFolder true now env).trace =
      [Eff.effCreateFile (filepathJoin backupFolder (zipFileName now)),
       Eff.effPrint ("Zip file path: " ++ filepathJoin backupFolder (zipFileName now))] ++
      (runWalk (zipWalkFn watchFolder) env.walkEntries []).2.1 ++
      [Eff.effRename (filepathJoin backupFolder (zipFileName now))
         (filepathJoin backupFolder (zipFileName now)),
       Eff.effLog ("Moved zip to: " ++ filepathJoin backupFolder (zipFileName now))] ++
      (runWalk deleteWalkFn pre []).2.1 ++
      [Eff.effLog ("Error deleting files: " ++ e)] ++
      [Eff.effCloseWriter env.closeWriterErr, Eff.effCloseFile env.closeFileErr] := by
    simp [zipAndMove, hc, hw, hr, hd, hdel, List.append_assoc]
  refine ⟨by simp [zipAndMove, hc, hw, hr, hd, hdel], ?_, ?_⟩
  · rw [htr]
    simp
  · intro q hq
    rw [htr] at hq
    simp only [List.mem_append] at hq
    rcases hq with (((((hq | hq) | hq) | hq) | hq) | hq)
    · simp only [List.mem_cons, List.not_mem_nil, or_false] at hq
      rcases hq with hq | hq <;> exact Eff.noConfusion hq
    · obtain ⟨s, hs⟩ := zipWalk_trace_logs watchFolder env.walkEntries [] _ hq
      exact Eff.noConfusion hs
    · simp only [List.mem_cons, List.not_mem_nil, or_false] at hq
      rcases hq with hq | hq <;> exact Eff.noConfusion hq
    · exact delete_trace_remove pre [] q hq
    · simp only [List.mem_singleton] at hq
      exact Eff.noConfusion hq
    · simp only [List.mem_cons, List.not_mem_nil, or_false] at hq
      rcases hq with hq | hq <;> exact Eff.noConfusion hq

/-- Witness for the amended C2 at the concrete failing environment. -/
theorem claim_C2_amended_witness :
    (zipAndMove "watch" "backup" true exampleTs envDelFail).result = .ok () ∧
    (∀ q, Eff.effRemove q ∈ (zipAndMove "watch" "backup" true exampleTs envDelFail).trace →
      DelEntry.delFile q none ∈ ([] : List DelEntry)) :=
  ⟨(claim_C2_amended "watch" "backup" exampleTs envDelFail []
      [.delFile "watch/b.txt" none] "watch/a.txt" "permission denied"
      rfl (by decide) rfl (by decide) (by decide)).1,
   (claim_C2_amended "watch" "backup" exampleTs envDelFail []
      [.delFile "watch/b.txt" none] "watch/a.txt" "permission denied"
      rfl (by decide) rfl (by decide) (by decide)).2.2⟩

/-- A loop iteration returns from `main` exactly on a closed channel. -/
theorem monitorStep_stop_iff (watchFolder backupFolder : String) (del : Bool)
    (m : ChanMsg) :
    (monitorStep watchFolder backupFolder del m).2 = StepResult.stop ↔
      m = ChanMsg.eventsClosed ∨ m = ChanMsg.errorsClosed := by
  cases m with
  | eventMsg name op now env =>
    simp only [monitorStep]
    by_cases hop : op &&& fsnotifyCreate = fsnotifyCreate
    · rw [if_pos hop]
      cases hres : (zipAndMove watchFolder backupFolder del now env).result <;> simp
    · rw [if_neg hop]
      simp
  | eventsClosed => simp [monitorStep]
  | watchErr e => simp [monitorStep]
  | errorsClosed => simp [monitorStep]

/-- On a message sequence containing no channel closure, the loop never
returns. -/
theorem monitorLoop_no_close_not_terminated (watchFolder backupFolder : String)
    (del : Bool) :
    ∀ msgs : List ChanMsg,
    (∀ m ∈ msgs, m ≠ ChanMsg.eventsClosed ∧ m ≠ ChanMsg.errorsClosed) →
    (monitorLoop watchFolder backupFolder del msgs).2 ≠ LoopResult.terminated := by
  intro msgs
  induction msgs with
  | nil => intro _; simp [monitorLoop]
  | cons m ms ih =>
    intro h
    simp only [monitorLoop]
    cases hs : (monitorStep watchFolder backupFolder del m).2 with
    | stop =>
      obtain ⟨h1, h2⟩ := h m (by simp)
      rcases (monitorStep_stop_iff watchFolder backupFolder del m).mp hs with he | he
      · exact absurd he h1
      · exact absurd he h2
    | exit c => simp
    | next => simpa using ih (fun m' hm => h m' (by simp [hm]))

/-- C3: whenever the archive-and-move run triggered by a creation event
fails — for any failing environment, covering bundle creation, walk
(open/copy), and rename failures — the monitor loop prints the error and
the process exits with code 1, rather than continuing to watch. (Each
failure was also logged inside `zipAndMove` when it arose.) -/
theorem claim_C3_event_error_exits (watchFolder backupFolder name : String)
    (del : Bool) (op : Nat) (now : Timestamp) (env : ZipEnv) (e : String)
    (hop : op &&& fsnotifyCreate = fsnotifyCreate)
    (hfail : (zipAndMove watchFolder backupFolder del now env).result = .error e) :
    (monitorStep watchFolder backupFolder del (.eventMsg name op now env)).2 =
      .exit 1 ∧
    Eff.effPrint ("Error during zip and move: " ++ e) ∈
      (monitorStep watchFolder backupFolder del (.eventMsg name op now env)).1 := by
  constructor
  · simp [monitorStep, hop, hfail]
  · simp [monitorStep, hop, hfail]

/-- Witness for C3 at a concrete run whose bundle creation fails. -/
theorem claim_C3_event_error_exits_witness :
    (1 &&& fsnotifyCreate = fsnotifyCreate) ∧
    (zipAndMove "watch" "backup" false exampleTs envCreateFail).result =
      .error "open backup/backup_20251011_123456.zip: no such file or directory" ∧
    (monitorStep "watch" "backup" false
      (.eventMsg "watch/new.txt" 1 exampleTs envCreateFail)).2 = .exit 1 :=
  ⟨by decide, by decide,
   (claim_C3_event_error_exits "watch" "backup" "watch/new.txt" false 1 exampleTs
      envCreateFail "open backup/backup_20251011_123456.zip: no such file or directory"
      (by decide) (by decide)).1⟩

/-- C4: the debounce-archive-relocate sequence runs if and only if the
received event's operation carries the `Create` bit (events without it —
write, remove, rename, chmod — produce no effect and the loop just
continues), and when it runs the trace begins with the detection log
followed immediately by the fixed one-second sleep, before any effect of
`zipAndMove`. -/
theorem claim_C4_create_gates_debounce (watchFolder backupFolder name : String)
    (del : Bool) (op : Nat) (now : Timestamp) (env : ZipEnv) :
    (op &&& fsnotifyCreate = fsnotifyCreate →
      ∃ tl, (monitorStep watchFolder backupFolder del (.eventMsg name op now env)).1 =
        Eff.effLog ("Detected new file: " ++ name) :: Eff.effSleep 1 ::
          ((zipAndMove watchFolder backupFolder del now env).trace ++ tl)) ∧
    (op &&& fsnotifyCreate ≠ fsnotifyCreate →
      monitorStep watchFolder backupFolder del (.eventMsg name op now env) =
        ([], .next)) := by
  constructor
  · intro hop
    cases hres : (zipAndMove watchFolder backupFolder del now env).result with
    | error e =>
      exact ⟨[Eff.effPrint ("Error during zip and move: " ++ e)],
        by simp [monitorStep, hop, hres]⟩
    | ok u =>
      cases u
      exact ⟨[], by simp [monitorStep, hop, hres]⟩
  · intro hop
    simp [monitorStep, hop]

/-- Witness for C4: a chmod-only event (op 16) does nothing, while a
create event (op 1) produces the log-then-sleep prefix. -/
theorem claim_C4_create_gates_debounce_witness :
    (16 &&& fsnotifyCreate ≠ fsnotifyCreate) ∧
    monitorStep "watch" "backup" false
      (.eventMsg "watch/a.txt" 16 exampleTs (pureEnv exampleTree)) = ([], .next) :=
  ⟨by decide,
   (claim_C4_create_gates_debounce "watch" "backup" "watch/a.txt" false 16 exampleTs
      (pureEnv exampleTree)).2 (by decide)⟩

/-- C8: an error delivered on the watcher's error channel is logged and the
loop moves on to the next receive, leaving the process alive; the loop
returns only when one of the two channels is closed. -/
theorem claim_C8_watcher_errors_nonfatal (watchFolder backupFolder : String)
    (del : Bool) (e : String) (rest msgs : List ChanMsg)
    (hnc : ∀ m ∈ msgs, m ≠ ChanMsg.eventsClosed ∧ m ≠ ChanMsg.errorsClosed) :
    monitorStep watchFolder backupFolder del (.watchErr e) =
      ([Eff.effLog ("Watcher error: " ++ e)], .next) ∧
    monitorLoop watchFolder backupFolder del (.watchErr e :: rest) =
      (Eff.effLog ("Watcher error: " ++ e) ::
         (monitorLoop watchFolder backupFolder del rest).1,
       (monitorLoop watchFolder backupFolder del rest).2) ∧
    (monitorLoop watchFolder backupFolder del msgs).2 ≠ LoopResult.terminated := by
  refine ⟨rfl, ?_, ?_⟩
  · simp [monitorLoop, monitorStep]
  · exact monitorLoop_no_close_not_terminated watchFolder backupFolder del msgs hnc

/-- Witness for C8 on a one-error message sequence. -/
theorem claim_C8_watcher_errors_nonfatal_witness :
    (∀ m ∈ [ChanMsg.watchErr "inotify overflow"],
      m ≠ ChanMsg.eventsClosed ∧ m ≠ ChanMsg.errorsClosed) ∧
    (monitorLoop "watch" "backup" false [ChanMsg.watchErr "inotify overflow"]).2 ≠
      LoopResult.terminated :=
  ⟨by decide,
   (claim_C8_watcher_errors_nonfatal "watch" "backup" false "inotify overflow" []
      [ChanMsg.watchErr "inotify overflow"] (by decide)).2.2⟩

/-- C7: the argument resolver yields exactly the two supplied positional
paths when `os.Args` has exactly three elements (program name plus two),
with no existence or permission check on either string; any other count is
a usage error, and at startup that usage error is fatal — `log.Fatal`, a
non-zero exit, before any watching begins. -/
theorem claim_C7_args_contract (prog w b : String) (args : List String)
    (env : StartEnv) (hlog : env.logOpenErr = none) :
    getFoldersFromArgs [prog, w, b] = .ok (w, b) ∧
    (args.length ≠ 3 → ∃ e, getFoldersFromArgs args = .error e) ∧
    (env.argv.length ≠ 3 → ∃ e, (mainStartup env).2 = .fatalExit e) := by
  refine ⟨?_, ?_, ?_⟩
  · simp [getFoldersFromArgs]
  · intro h
    exact ⟨"usage: " ++ args.getD 0 "" ++ " <watchFolder> <backupFolder>",
      by simp [getFoldersFromArgs, h]⟩
  · intro h
    have hg : getFoldersFromArgs env.argv =
        .error ("usage: " ++ env.argv.getD 0 "" ++ " <watchFolder> <backupFolder>") := by
      simp [getFoldersFromArgs, h]
    exact ⟨"usage: " ++ env.argv.getD 0 "" ++ " <watchFolder> <backupFolder>",
      by simp [mainStartup, hlog, hg]⟩

/-- Witness for C7 on a concrete good and a concrete bad invocation. -/
theorem claim_C7_args_contract_witness :
    getFoldersFromArgs ["foldermon", "watch", "backup"] = .ok ("watch", "backup") ∧
    (∃ e, (mainStartup ⟨none, ["foldermon"], none, none, none⟩).2 =
      .fatalExit e) :=
  ⟨(claim_C7_args_contract "foldermon" "watch" "backup" ["foldermon"]
      ⟨none, ["foldermon"], none, none, none⟩ rfl).1,
   (claim_C7_args_contract "foldermon" "watch" "backup" ["foldermon"]
      ⟨none, ["foldermon"], none, none, none⟩ rfl).2.2 (by decide)⟩

/-- C9: the result of `os.MkdirAll` on the backup folder is discarded: a
failure changes neither the startup outcome nor any log line, startup still
reaches the monitor loop when the remaining setup succeeds, and the failure
surfaces only later, as the per-event `Failed to create zip` error of a run
whose bundle file cannot be created — which then exits the process. -/
theorem claim_C9_mkdir_failure_ignored (env : StartEnv) (x : Option String)
    (prog w b watchFolder backupFolder name : String) (del : Bool) (op : Nat)
    (now : Timestamp) (zenv : ZipEnv) (e : String) :
    ((mainStartup { env with mkdirErr := x }).2 = (mainStartup env).2) ∧
    (logLines (mainStartup { env with mkdirErr := x }).1 =
      logLines (mainStartup env).1) ∧
    (env.logOpenErr = none → env.argv = [prog, w, b] → env.watcherErr = none →
      env.addErr = none → (mainStartup env).2 = .monitoring w b) ∧
    (zenv.createErr = some e →
      (zipAndMove watchFolder backupFolder del now zenv).result = .error e ∧
      Eff.effLog ("Failed to create zip: " ++ e) ∈
        (zipAndMove watchFolder backupFolder del now zenv).trace ∧
      (op &&& fsnotifyCreate = fsnotifyCreate →
        (monitorStep watchFolder backupFolder del
          (.eventMsg name op now zenv)).2 = .exit 1)) := by
  refine ⟨?_, ?_, ?_, ?_⟩
  · cases hl : env.logOpenErr
    · cases hg : getFoldersFromArgs env.argv
      · simp [mainStartup, hl, hg]
      · cases hwr : env.watcherErr
        · cases har : env.addErr <;> simp [mainStartup, hl, hg, hwr, har]
        · simp [mainStartup, hl, hg, hwr]
    · simp [mainStartup, hl]
  · cases hl : env.logOpenErr
    · cases hg : getFoldersFromArgs env.argv
      · simp [mainStartup, hl, hg, logLines]
      · cases hwr : env.watcherErr
        · cases har : env.addErr <;>
            simp [mainStartup, hl, hg, hwr, har, logLines]
        · simp [mainStartup, hl, hg, hwr, logLines]
    · simp [mainStartup, hl, logLines]
  · intro h1 h2 h3 h4
    simp [mainStartup, h1, h2, h3, h4, getFoldersFromArgs]
  · intro hce
    refine ⟨by simp [zipAndMove, hce], by simp [zipAndMove, hce], ?_⟩
    intro hop
    simp [monitorStep, hop, zipAndMove, hce]

/-- Witness for C9 at a concrete startup whose `MkdirAll` fails. -/
theorem claim_C9_mkdir_failure_ignored_witness :
    (mainStartup { startEnvOk with mkdirErr := some "permission denied" }).2 =
      (mainStartup startEnvOk).2 ∧
    (mainStartup startEnvOk).2 = .monitoring "watch" "backup" :=
  ⟨(claim_C9_mkdir_failure_ignored startEnvOk (some "permission denied")
      "foldermon" "watch" "backup" "watch" "backup"
      "n" false 1 exampleTs envCreateFail "x").1,
   (claim_C9_mkdir_failure_ignored startEnvOk (some "permission denied")
      "foldermon" "watch" "backup" "watch" "backup"
      "n" false 1 exampleTs envCreateFail "x").2.2.1 rfl rfl rfl rfl⟩

end Foldermon
